import Mathlib

/-!
Verification of the location-scoped credential resolution and cache design
of this repository (storage browser credentials: scopes, permission lattice,
grant matching, credentials cache, store lifecycle) and of the copyObject
serializer validation and deserializer.

Strings are embedded as `List Char` (`String.data`) where character-level
reasoning is needed; timestamps as `Int`.
-/

/-- Permission, from src/packages/storage/src/storageBrowser/types.ts:
one of READ, WRITE, READWRITE. -/
inductive Permission
  | READ
  | WRITE
  | READWRITE
deriving DecidableEq

/-- Modelled from the spec: the PermissionLattice implementation is not under
src/ (only the Permission type declaration is). Satisfies(grantPermission,
requestedPermission) is true iff grantPermission == requestedPermission, or
grantPermission == READWRITE. -/
def satisfies (g r : Permission) : Bool :=
  decide (g = r) || decide (g = Permission.READWRITE)

/-- ScopeParser output kinds, from the LocationType declaration in types.ts:
BUCKET, PREFIX, OBJECT. -/
inductive Scope
  | bucketScope (bucket : List Char)
  | pfxScope (bucket : List Char) (pfx : List Char)
  | objScope (bucket : List Char) (key : List Char)
deriving DecidableEq

/-- The bucket component of a scope. -/
def Scope.bucket : Scope → List Char
  | .bucketScope b => b
  | .pfxScope b _ => b
  | .objScope b _ => b

/-- Boolean starts-with test on character lists: `hasPref p s` holds when
`s` begins with `p`. -/
def hasPref : List Char → List Char → Bool
  | [], _ => true
  | _ :: _, [] => false
  | a :: asx, b :: bs => decide (a = b) && hasPref asx bs

/-- Modelled from the spec: the Covers implementation is not under src/ (only
the LocationAccess type declaration is). A BUCKET grant covers any requested
scope in the same bucket; a PREFIX grant covers any requested OBJECT or
PREFIX scope whose key/path starts with the grant's wildcard path (including
the grant's own path); an OBJECT grant covers only a requested OBJECT scope
with an identical key. -/
def covers : Scope → Scope → Bool
  | .bucketScope b, s => decide (s.bucket = b)
  | .pfxScope b p, .objScope b' k => decide (b' = b) && hasPref p k
  | .pfxScope b p, .pfxScope b' p' => decide (b' = b) && hasPref p p'
  | .pfxScope _ _, .bucketScope _ => false
  | .objScope b k, .objScope b' k' => decide (b' = b) && decide (k' = k)
  | .objScope _ _, _ => false

theorem hasPref_iff (p s : List Char) : hasPref p s = true ↔ ∃ t, s = p ++ t := by
  induction p generalizing s with
  | nil => simp [hasPref]
  | cons a asx ih =>
    cases s with
    | nil =>
      simp [hasPref]
    | cons b bs =>
      simp only [hasPref, Bool.and_eq_true, decide_eq_true_eq, ih]
      constructor
      · rintro ⟨rfl, t, rfl⟩
        exact ⟨t, rfl⟩
      · rintro ⟨t, h⟩
        cases h
        exact ⟨rfl, t, rfl⟩

/-- Claim C1: for every grant permission g and requested permission r,
satisfies g r is true iff g equals r or g equals READWRITE; in particular
satisfies READ WRITE and satisfies WRITE READ are both false. -/
theorem satisfies_characterization :
    (∀ g r : Permission, satisfies g r = true ↔ (g = r ∨ g = Permission.READWRITE))
    ∧ satisfies Permission.READ Permission.WRITE = false
    ∧ satisfies Permission.WRITE Permission.READ = false := by
  refine ⟨?_, rfl, rfl⟩
  intro g r
  cases g <;> cases r <;> simp [satisfies]

/-- Claim C2: covers g s holds iff: g is a BUCKET scope and s is in the same
bucket; or g is a PREFIX scope and s is an OBJECT or PREFIX scope in the same
bucket whose key/path starts with g's wildcard path (including g's own path);
or g is an OBJECT scope and s is an OBJECT scope with an identical key. In
particular prefix "logs/" covers "logs/a.txt" but not "logslegacy/a.txt". -/
theorem covers_characterization :
    (∀ b s, covers (Scope.bucketScope b) s = true ↔ s.bucket = b)
    ∧ (∀ b p b' p', covers (Scope.pfxScope b p) (Scope.pfxScope b' p') = true
        ↔ (b' = b ∧ ∃ t, p' = p ++ t))
    ∧ (∀ b p b' k, covers (Scope.pfxScope b p) (Scope.objScope b' k) = true
        ↔ (b' = b ∧ ∃ t, k = p ++ t))
    ∧ (∀ b p b'', covers (Scope.pfxScope b p) (Scope.bucketScope b'') = false)
    ∧ (∀ b p, covers (Scope.pfxScope b p) (Scope.pfxScope b p) = true)
    ∧ (∀ b k s, covers (Scope.objScope b k) s = true ↔ s = Scope.objScope b k)
    ∧ covers (Scope.pfxScope "b".data "logs/".data)
        (Scope.objScope "b".data "logs/a.txt".data) = true
    ∧ covers (Scope.pfxScope "b".data "logs/".data)
        (Scope.objScope "b".data "logslegacy/a.txt".data) = false := by
  refine ⟨?_, ?_, ?_, ?_, ?_, ?_, by decide, by decide⟩
  · intro b s; simp [covers]
  · intro b p b' p'; simp [covers, hasPref_iff]
  · intro b p b' k; simp [covers, hasPref_iff]
  · intro b p b''; rfl
  · intro b p
    have h : hasPref p p = true := (hasPref_iff p p).mpr ⟨[], by simp⟩
    simp [covers, h]
  · intro b k s
    cases s <;> simp [covers, Scope.objScope.injEq, and_comm]

/-- Grant, from the AccessGrant declaration in types.ts: a scope, a
permission, and an optional application ARN. -/
structure Grant where
  scope : Scope
  permission : Permission
  applicationArn : Option (List Char)
deriving DecidableEq

/-- NoMatchError: no grant covers the requested scope/permission. -/
inductive NoMatchError
  | noMatch
deriving DecidableEq

/-- Specificity rank of a scope kind: OBJECT above PREFIX above BUCKET. -/
def kindRank : Scope → Nat
  | .objScope _ _ => 2
  | .pfxScope _ _ => 1
  | .bucketScope _ => 0

/-- Length of the prefix/path component of a scope (0 for a bucket scope). -/
def pathLen : Scope → Nat
  | .bucketScope _ => 0
  | .pfxScope _ p => p.length
  | .objScope _ k => k.length

/-- Strict specificity comparison on scopes: kind rank first, then
prefix/path length. -/
def moreSpecific (a b : Scope) : Bool :=
  decide (kindRank b < kindRank a)
    || (decide (kindRank a = kindRank b) && decide (pathLen b < pathLen a))

/-- Non-strict specificity order on scopes (lexicographic on kind rank then
path length). -/
def specLe (a b : Scope) : Prop :=
  kindRank a < kindRank b ∨ (kindRank a = kindRank b ∧ pathLen a ≤ pathLen b)

/-- Selects the most specific grant of a list, keeping the earlier grant on
ties. -/
def pickBest : List Grant → Option Grant
  | [] => none
  | g :: gs =>
    match pickBest gs with
    | none => some g
    | some h => if moreSpecific h.scope g.scope then some h else some g

/-- Modelled from the spec: the GrantMatcher implementation is not under src/.
Filter grants where Covers(grant.scope, requestedScope) and
Satisfies(grant.permission, requestedPermission); among the filtered set,
select the most specific by scope kind ordering OBJECT > PREFIX > BUCKET,
breaking ties by longest prefix/path length; return NoMatchError if the
filtered set is empty. -/
def matchGrants (grants : List Grant) (s : Scope) (p : Permission) :
    Except NoMatchError Grant :=
  match pickBest (grants.filter (fun g => covers g.scope s && satisfies g.permission p)) with
  | none => .error .noMatch
  | some g => .ok g

theorem pickBest_eq_none (l : List Grant) : pickBest l = none ↔ l = [] := by
  cases l with
  | nil => simp [pickBest]
  | cons g gs =>
    simp only [pickBest]
    cases pickBest gs with
    | none => simp
    | some h =>
      by_cases hc : moreSpecific h.scope g.scope = true <;> simp [hc]

theorem specLe_of_not_moreSpecific (a b : Scope) (h : moreSpecific a b = false) :
    specLe a b := by
  simp only [moreSpecific, Bool.or_eq_false_iff, Bool.and_eq_false_iff,
    decide_eq_false_iff_not, Nat.not_lt] at h
  obtain ⟨h1, h2⟩ := h
  rcases Nat.lt_or_ge (kindRank a) (kindRank b) with hlt | hge
  · exact Or.inl hlt
  · have heq : kindRank a = kindRank b := Nat.le_antisymm h1 hge
    rcases h2 with h2 | h2
    · exact absurd heq h2
    · exact Or.inr ⟨heq, h2⟩

theorem specLe_of_moreSpecific (a b : Scope) (h : moreSpecific b a = true) :
    specLe a b := by
  simp only [moreSpecific, Bool.or_eq_true, Bool.and_eq_true,
    decide_eq_true_eq] at h
  rcases h with h | ⟨h1, h2⟩
  · exact Or.inl h
  · exact Or.inr ⟨h1.symm, Nat.le_of_lt h2⟩

theorem specLe_refl (a : Scope) : specLe a a := Or.inr ⟨rfl, Nat.le_refl _⟩

theorem specLe_trans (a b c : Scope) (hab : specLe a b) (hbc : specLe b c) :
    specLe a c := by
  rcases hab with hab | ⟨hab1, hab2⟩ <;> rcases hbc with hbc | ⟨hbc1, hbc2⟩
  · exact Or.inl (Nat.lt_trans hab hbc)
  · exact Or.inl (hbc1 ▸ hab)
  · exact Or.inl (hab1 ▸ hbc)
  · exact Or.inr ⟨hab1.trans hbc1, Nat.le_trans hab2 hbc2⟩

theorem pickBest_spec (l : List Grant) (g : Grant) (h : pickBest l = some g) :
    g ∈ l ∧ ∀ g' ∈ l, specLe g'.scope g.scope := by
  induction l generalizing g with
  | nil => simp [pickBest] at h
  | cons a l ih =>
    simp only [pickBest] at h
    cases hp : pickBest l with
    | none =>
      rw [hp] at h
      cases h
      have hl : l = [] := (pickBest_eq_none l).mp hp
      subst hl
      exact ⟨List.mem_singleton.mpr rfl, by
        intro g' hg'
        cases List.mem_singleton.mp hg'
        exact specLe_refl _⟩
    | some b =>
      rw [hp] at h
      have h' : (if moreSpecific b.scope a.scope = true then some b else some a) = some g := h
      obtain ⟨hb_mem, hb_max⟩ := ih b hp
      by_cases hc : moreSpecific b.scope a.scope = true
      · rw [if_pos hc] at h'
        cases h'
        refine ⟨List.mem_cons_of_mem _ hb_mem, ?_⟩
        intro g' hg'
        rcases List.mem_cons.mp hg' with rfl | hg'
        · exact specLe_of_moreSpecific _ _ hc
        · exact hb_max g' hg'
      · rw [if_neg hc] at h'
        cases h'
        refine ⟨List.mem_cons_self _ _, ?_⟩
        intro g' hg'
        rcases List.mem_cons.mp hg' with rfl | hg'
        · exact specLe_refl _
        · exact specLe_trans _ _ _ (hb_max g' hg')
            (specLe_of_not_moreSpecific _ _ (Bool.eq_false_iff.mpr hc))

/-- Claim C3: matchGrants filters the grants to those whose scope covers the
requested scope and whose permission satisfies the requested permission;
it returns NoMatchError iff the filtered set is empty, and otherwise returns
a matching grant that is maximal for the specificity order (OBJECT above
PREFIX above BUCKET, ties by longest prefix/path). With grants
bucket:*:READWRITE and bucket:logs/*:READ, requesting READ on bucket:logs/x
resolves to the PREFIX grant; requesting WRITE with only bucket:logs/*:READ
yields NoMatchError. -/
theorem matchGrants_spec :
    (∀ grants s p, matchGrants grants s p = .error NoMatchError.noMatch
      ↔ grants.filter (fun g => covers g.scope s && satisfies g.permission p) = [])
    ∧ (∀ grants s p g, matchGrants grants s p = .ok g →
        (covers g.scope s && satisfies g.permission p) = true
        ∧ g ∈ grants
        ∧ ∀ g' ∈ grants, (covers g'.scope s && satisfies g'.permission p) = true →
            specLe g'.scope g.scope)
    ∧ matchGrants
        [⟨Scope.bucketScope "bucket".data, Permission.READWRITE, none⟩,
         ⟨Scope.pfxScope "bucket".data "logs/".data, Permission.READ, none⟩]
        (Scope.objScope "bucket".data "logs/x".data) Permission.READ
      = .ok ⟨Scope.pfxScope "bucket".data "logs/".data, Permission.READ, none⟩
    ∧ matchGrants
        [⟨Scope.pfxScope "bucket".data "logs/".data, Permission.READ, none⟩]
        (Scope.objScope "bucket".data "logs/x".data) Permission.WRITE
      = .error NoMatchError.noMatch := by
  refine ⟨?_, ?_, by rfl, by rfl⟩
  · intro grants s p
    unfold matchGrants
    cases hp : pickBest (grants.filter (fun g => covers g.scope s && satisfies g.permission p)) with
    | none => simpa using (pickBest_eq_none _).mp hp
    | some g =>
      simp only []
      constructor
      · intro h; cases h
      · intro h
        rw [h] at hp
        simp [pickBest] at hp
  · intro grants s p g h
    unfold matchGrants at h
    cases hp : pickBest (grants.filter (fun g => covers g.scope s && satisfies g.permission p)) with
    | none => rw [hp] at h; cases h
    | some b =>
      rw [hp] at h
      cases h
      obtain ⟨hmem, hmax⟩ := pickBest_spec _ _ hp
      rw [List.mem_filter] at hmem
      refine ⟨hmem.2, hmem.1, ?_⟩
      intro g' hg' hcond
      exact hmax g' (List.mem_filter.mpr ⟨hg', hcond⟩)

/-- Instantiation of the hypothesis-bearing part of matchGrants_spec at the
overlapping-grants example: the resolved PREFIX grant passes the filter,
is among the grants, and is maximal. -/
theorem matchGrants_spec_witness :
    (covers (Scope.pfxScope "bucket".data "logs/".data)
        (Scope.objScope "bucket".data "logs/x".data)
      && satisfies Permission.READ Permission.READ) = true
    ∧ (⟨Scope.pfxScope "bucket".data "logs/".data, Permission.READ, none⟩ : Grant)
        ∈ [⟨Scope.bucketScope "bucket".data, Permission.READWRITE, none⟩,
           ⟨Scope.pfxScope "bucket".data "logs/".data, Permission.READ, none⟩]
    ∧ ∀ g' ∈ [⟨Scope.bucketScope "bucket".data, Permission.READWRITE, none⟩,
              (⟨Scope.pfxScope "bucket".data "logs/".data, Permission.READ, none⟩ : Grant)],
        (covers g'.scope (Scope.objScope "bucket".data "logs/x".data)
          && satisfies g'.permission Permission.READ) = true →
        specLe g'.scope (Scope.pfxScope "bucket".data "logs/".data) :=
  matchGrants_spec.2.1
    [⟨Scope.bucketScope "bucket".data, Permission.READWRITE, none⟩,
     ⟨Scope.pfxScope "bucket".data "logs/".data, Permission.READ, none⟩]
    (Scope.objScope "bucket".data "logs/x".data) Permission.READ
    ⟨Scope.pfxScope "bucket".data "logs/".data, Permission.READ, none⟩
    (by rfl)

/-- CredentialsRecord: an opaque credential bundle together with its expiry
timestamp (seconds, as an integer clock). -/
structure CredentialsRecord (α : Type) where
  credentials : α
  expiresAt : Int
deriving DecidableEq

/-- Modelled from the spec: the CredentialsCache implementation is not under
src/. A cached record is fresh exactly when now < expiresAt - safetyMargin. -/
def isFresh (now margin : Int) (r : CredentialsRecord α) : Bool :=
  decide (now < r.expiresAt - margin)

/-- Modelled from the spec: GetOrFetch returns the cached record if present
and fresh; otherwise it fetches, stores the result, and returns it. The
result triple is (record returned, whether IssueCredentials ran, new cache
entry). -/
def getOrFetch (now margin : Int) (cached : Option (CredentialsRecord α))
    (fetched : CredentialsRecord α) :
    CredentialsRecord α × Bool × Option (CredentialsRecord α) :=
  match cached with
  | some r => if isFresh now margin r then (r, false, some r) else (fetched, true, some fetched)
  | none => (fetched, true, some fetched)

/-- Claim C4: getOrFetch returns the cached record without fetching iff
now < expiresAt - margin (boundary exclusive on the margin side); a record
with expiresAt = now + 1 under margin 2 is treated as expired and triggers a
refetch. -/
theorem getOrFetch_freshness :
    (∀ (now margin : Int) (r fetched : CredentialsRecord Nat),
      (getOrFetch now margin (some r) fetched).2.1 = false
        ↔ now < r.expiresAt - margin)
    ∧ (∀ (now margin : Int) (r fetched : CredentialsRecord Nat),
        now < r.expiresAt - margin →
        getOrFetch now margin (some r) fetched = (r, false, some r))
    ∧ (∀ (now : Int) (c : Nat) (fetched : CredentialsRecord Nat),
        getOrFetch now 2 (some ⟨c, now + 1⟩) fetched = (fetched, true, some fetched)) := by
  refine ⟨?_, ?_, ?_⟩
  · intro now margin r fetched
    by_cases h : now < r.expiresAt - margin
    · simp [getOrFetch, isFresh, h]
    · simp [getOrFetch, isFresh, h]
  · intro now margin r fetched h
    simp [getOrFetch, isFresh, h]
  · intro now c fetched
    have h : ¬ now < now + 1 - 2 := by omega
    simp [getOrFetch, isFresh, h]

/-- Instantiation of the hypothesis-bearing part of getOrFetch_freshness:
a record expiring in 10 with margin 2 at time 0 is served from cache. -/
theorem getOrFetch_freshness_witness :
    getOrFetch 0 2 (some (⟨7, 10⟩ : CredentialsRecord Nat)) ⟨8, 20⟩
      = (⟨7, 10⟩, false, some ⟨7, 10⟩) :=
  getOrFetch_freshness.2.1 0 2 ⟨7, 10⟩ ⟨8, 20⟩ (by decide)

/-- Per-key cache entry state for the single-flight protocol: the cached
record (if any), whether a fetch is in flight, how many times
IssueCredentials has been called, and the callers waiting on the in-flight
fetch. -/
structure CacheState (α : Type) where
  record : Option α
  inflight : Bool
  fetchCount : Nat
  waiters : List Nat
deriving DecidableEq

/-- The empty entry: key uncached, nothing in flight. -/
def initCache (α : Type) : CacheState α :=
  { record := none, inflight := false, fetchCount := 0, waiters := [] }

/-- Modelled from the spec: one caller's atomic check-and-install section of
GetOrFetch. If a record is cached the caller takes it (no state change
modelled); if a fetch is in flight the caller joins the waiters; otherwise
the caller installs the in-flight marker and issues the single fetch. -/
def arrive (i : Nat) (st : CacheState α) : CacheState α :=
  match st.record with
  | some _ => st
  | none =>
    if st.inflight then { st with waiters := i :: st.waiters }
    else { st with inflight := true, fetchCount := st.fetchCount + 1,
                   waiters := i :: st.waiters }

/-- Runs the arrival sections of a list of callers in interleaving order. -/
def arriveAll (callers : List Nat) (st : CacheState α) : CacheState α :=
  callers.foldl (fun s i => arrive i s) st

/-- Modelled from the spec: completion of the in-flight fetch stores the
record and delivers it to every waiter. Returns the new state and the
(caller, record) deliveries. -/
def completeFetch (r : α) (st : CacheState α) : CacheState α × List (Nat × α) :=
  ({ record := some r, inflight := false, fetchCount := st.fetchCount, waiters := [] },
   st.waiters.map (fun i => (i, r)))

theorem arriveAll_inflight (callers : List Nat) (st : CacheState α)
    (h1 : st.record = none) (h2 : st.inflight = true) :
    arriveAll callers st =
      { record := none, inflight := true, fetchCount := st.fetchCount,
        waiters := callers.reverse ++ st.waiters } := by
  induction callers generalizing st with
  | nil =>
    simp [arriveAll]
    cases st
    simp_all
  | cons c cs ih =>
    have hstep : arrive c st =
        { record := none, inflight := true,
          fetchCount := st.fetchCount, waiters := c :: st.waiters } := by
      cases st
      simp_all [arrive]
    simp only [arriveAll, List.foldl_cons] at *
    rw [hstep, ih _ rfl rfl]
    simp

/-- Claim C5: for every nonempty list of callers arriving concurrently at an
uncached key, exactly one IssueCredentials call is made, and completion of
that single fetch delivers its result to every one of the callers. -/
theorem singleFlight (callers : List Nat) (h : callers ≠ []) :
    (arriveAll callers (initCache Nat)).fetchCount = 1
    ∧ ∀ r : Nat,
        ((completeFetch r (arriveAll callers (initCache Nat))).2.map Prod.fst
          = callers.reverse)
        ∧ ∀ d ∈ (completeFetch r (arriveAll callers (initCache Nat))).2, d.2 = r := by
  cases callers with
  | nil => exact absurd rfl h
  | cons c cs =>
    have harr : arrive c (initCache Nat) =
        { record := none, inflight := true, fetchCount := 1, waiters := [c] } := by
      simp [arrive, initCache]
    have hall : arriveAll (c :: cs) (initCache Nat) =
        { record := none, inflight := true, fetchCount := 1,
          waiters := cs.reverse ++ [c] } := by
      simp only [arriveAll, List.foldl_cons]
      rw [show List.foldl (fun s i => arrive i s) (arrive c (initCache Nat)) cs
            = arriveAll cs (arrive c (initCache Nat)) from rfl]
      rw [harr, arriveAll_inflight cs _ rfl rfl]
    refine ⟨by rw [hall], ?_⟩
    intro r
    rw [hall]
    constructor
    · simp [completeFetch, List.map_map, Function.comp_def]
    · intro d hd
      simp only [completeFetch, List.mem_map] at hd
      obtain ⟨i, _, rfl⟩ := hd
      rfl

/-- Instantiation of singleFlight at three concrete callers. -/
theorem singleFlight_witness :
    (arriveAll [0, 1, 2] (initCache Nat)).fetchCount = 1
    ∧ ((completeFetch 9 (arriveAll [0, 1, 2] (initCache Nat))).2.map Prod.fst
        = [2, 1, 0])
    ∧ ∀ d ∈ (completeFetch 9 (arriveAll [0, 1, 2] (initCache Nat))).2, d.2 = 9 :=
  ⟨(singleFlight [0, 1, 2] (by decide)).1,
   ((singleFlight [0, 1, 2] (by decide)).2 9).1,
   ((singleFlight [0, 1, 2] (by decide)).2 9).2⟩

/-- MalformedScopeError: the scope string does not match one of the three
recognized shapes. -/
inductive MalformedScopeError
  | malformedScope
deriving DecidableEq

/-- Strips an expected literal from the front of a character list, returning
the remainder, or none if the list does not start with the literal. -/
def dropLit : List Char → List Char → Option (List Char)
  | [], s => some s
  | _ :: _, [] => none
  | c :: cs, d :: ds => if c = d then dropLit cs ds else none

/-- Classifies the path part after the bucket: a lone star is a bucket
wildcard, a trailing star is a prefix wildcard, anything else nonempty is an
object key. -/
def parsePath (b path : List Char) : Except MalformedScopeError Scope :=
  match path.reverse with
  | [] => .error .malformedScope
  | c :: revp =>
    if c = '*' then
      if revp = [] then .ok (.bucketScope b)
      else .ok (.pfxScope b revp.reverse)
    else .ok (.objScope b path)

/-- Splits the remainder after the scheme into nonempty bucket and path at
the first slash. -/
def parseRest (rest : List Char) : Except MalformedScopeError Scope :=
  match rest.dropWhile (fun c => decide (c ≠ '/')) with
  | [] => .error .malformedScope
  | _ :: path =>
    if rest.takeWhile (fun c => decide (c ≠ '/')) = [] then .error .malformedScope
    else parsePath (rest.takeWhile (fun c => decide (c ≠ '/'))) path

/-- Modelled from the spec: the ScopeParser implementation is not under src/
(only the LocationScope format documentation in types.ts is). Parses one of
the three recognized scope shapes "s3://bucket/*", "s3://bucket/path*",
"s3://bucket/path/object"; anything else fails with MalformedScopeError. -/
def parseScope (s : List Char) : Except MalformedScopeError Scope :=
  match dropLit "s3://".data s with
  | none => .error .malformedScope
  | some rest => parseRest rest

/-- Reconstructs the textual scope from a parsed scope. -/
def renderScope : Scope → List Char
  | .bucketScope b => "s3://".data ++ (b ++ "/*".data)
  | .pfxScope b p => "s3://".data ++ (b ++ ('/' :: (p ++ "*".data)))
  | .objScope b k => "s3://".data ++ (b ++ ('/' :: k))

/-- A scope whose rendering is one of the three recognized shapes: nonempty
slash-free bucket; a prefix wildcard needs a nonempty path; an object needs a
nonempty key without a trailing star. -/
def validScope : Scope → Prop
  | .bucketScope b => b ≠ [] ∧ '/' ∉ b
  | .pfxScope b p => b ≠ [] ∧ '/' ∉ b ∧ p ≠ []
  | .objScope b k => b ≠ [] ∧ '/' ∉ b ∧ k ≠ [] ∧ k.reverse.head? ≠ some '*'

theorem dropLit_self_append (l t : List Char) : dropLit l (l ++ t) = some t := by
  induction l with
  | nil => rfl
  | cons c cs ih => simp [dropLit, ih]

theorem eq_append_of_dropLit (l : List Char) :
    ∀ s t : List Char, dropLit l s = some t → s = l ++ t := by
  induction l with
  | nil =>
    intro s t h
    cases h
    rfl
  | cons c cs ih =>
    intro s t h
    cases s with
    | nil => cases h
    | cons d ds =>
      by_cases hc : c = d
      · subst hc
        rw [dropLit, if_pos rfl] at h
        simpa using ih ds t h
      · rw [dropLit, if_neg hc] at h
        cases h

theorem takeWhile_pred_of_mem (p : Char → Bool) :
    ∀ (l : List Char) (a : Char), a ∈ l.takeWhile p → p a = true := by
  intro l
  induction l with
  | nil => intro a h; cases h
  | cons c cs ih =>
    intro a h
    rw [List.takeWhile] at h
    cases hp : p c with
    | false => rw [hp] at h; cases h
    | true =>
      rw [hp] at h
      rcases List.mem_cons.mp h with rfl | h
      · exact hp
      · exact ih a h

theorem dropWhile_cons_pred_false (p : Char → Bool) :
    ∀ (l : List Char) (a : Char) (t : List Char), l.dropWhile p = a :: t → p a = false := by
  intro l
  induction l with
  | nil => intro a t h; cases h
  | cons c cs ih =>
    intro a t h
    rw [List.dropWhile] at h
    cases hp : p c with
    | false =>
      rw [hp] at h
      cases h
      exact hp
    | true =>
      rw [hp] at h
      exact ih a t h

theorem takeWhile_split_slash (b path : List Char) (hb : '/' ∉ b) :
    (b ++ '/' :: path).takeWhile (fun c => decide (c ≠ '/')) = b := by
  induction b with
  | nil => simp [List.takeWhile]
  | cons c cs ih =>
    have hc : c ≠ '/' := fun h => hb (h ▸ List.mem_cons_self c cs)
    have hcs : '/' ∉ cs := fun h => hb (List.mem_cons_of_mem _ h)
    simp only [List.cons_append, List.takeWhile_cons]
    rw [decide_eq_true (show c ≠ '/' from hc), if_pos rfl]
    show c :: List.takeWhile (fun c => decide (c ≠ '/')) (cs ++ '/' :: path) = c :: cs
    rw [ih hcs]

theorem dropWhile_split_slash (b path : List Char) (hb : '/' ∉ b) :
    (b ++ '/' :: path).dropWhile (fun c => decide (c ≠ '/')) = '/' :: path := by
  induction b with
  | nil => simp [List.dropWhile]
  | cons c cs ih =>
    have hc : c ≠ '/' := fun h => hb (h ▸ List.mem_cons_self c cs)
    have hcs : '/' ∉ cs := fun h => hb (List.mem_cons_of_mem _ h)
    simp only [List.cons_append, List.dropWhile_cons]
    rw [decide_eq_true (show c ≠ '/' from hc), if_pos rfl]
    show List.dropWhile (fun c => decide (c ≠ '/')) (cs ++ '/' :: path) = '/' :: path
    rw [ih hcs]

theorem parsePath_bucket (b : List Char) : parsePath b ['*'] = .ok (.bucketScope b) := rfl

theorem parsePath_pfx (b p : List Char) (hp : p ≠ []) :
    parsePath b (p ++ ['*']) = .ok (.pfxScope b p) := by
  unfold parsePath
  rw [List.reverse_append]
  simp [List.reverse_eq_nil_iff, hp]

theorem parsePath_obj (b k : List Char) (hk : k ≠ [])
    (hstar : k.reverse.head? ≠ some '*') :
    parsePath b k = .ok (.objScope b k) := by
  unfold parsePath
  cases hr : k.reverse with
  | nil => exact absurd (by simpa using congrArg List.reverse hr) hk
  | cons c revk =>
    have hc : c ≠ '*' := by
      intro h
      exact hstar (by simp [hr, h])
    show (if c = '*' then _ else Except.ok (Scope.objScope b k)) = _
    rw [if_neg hc]

theorem parseRest_split (b path : List Char) (hb : b ≠ []) (hslash : '/' ∉ b) :
    parseRest (b ++ '/' :: path) = parsePath b path := by
  unfold parseRest
  rw [dropWhile_split_slash b path hslash, takeWhile_split_slash b path hslash]
  show (if b = [] then _ else parsePath b path) = parsePath b path
  rw [if_neg hb]

theorem parsePath_spec (b path : List Char) (sc : Scope)
    (h : parsePath b path = .ok sc) :
    (path = ['*'] ∧ sc = .bucketScope b)
    ∨ (∃ p, p ≠ [] ∧ path = p ++ ['*'] ∧ sc = .pfxScope b p)
    ∨ (path ≠ [] ∧ path.reverse.head? ≠ some '*' ∧ sc = .objScope b path) := by
  unfold parsePath at h
  cases hr : path.reverse with
  | nil =>
    rw [hr] at h
    cases h
  | cons c revp =>
    have hpath : path = revp.reverse ++ [c] := by
      have := congrArg List.reverse hr
      simpa using this
    rw [hr] at h
    have h' : (if c = '*' then
        (if revp = [] then Except.ok (Scope.bucketScope b)
         else Except.ok (Scope.pfxScope b revp.reverse))
        else Except.ok (Scope.objScope b path)) = Except.ok sc := h
    by_cases hc : c = '*'
    · rw [if_pos hc] at h'
      by_cases hrev : revp = []
      · rw [if_pos hrev] at h'
        cases h'
        subst hc hrev
        exact Or.inl ⟨by simpa using hpath, rfl⟩
      · rw [if_neg hrev] at h'
        cases h'
        subst hc
        refine Or.inr (Or.inl ⟨revp.reverse, ?_, ?_, rfl⟩)
        · simpa [List.reverse_eq_nil_iff] using hrev
        · exact hpath
    · rw [if_neg hc] at h'
      cases h'
      refine Or.inr (Or.inr ⟨?_, ?_, rfl⟩)
      · intro hnil
        rw [hnil] at hr
        cases hr
      · simpa using hc

theorem parseRest_spec (rest : List Char) (sc : Scope)
    (h : parseRest rest = .ok sc) :
    ∃ b path, rest = b ++ '/' :: path ∧ b ≠ [] ∧ '/' ∉ b
      ∧ parsePath b path = .ok sc := by
  unfold parseRest at h
  cases hd : rest.dropWhile (fun c => decide (c ≠ '/')) with
  | nil =>
    rw [hd] at h
    cases h
  | cons a path =>
    rw [hd] at h
    have h' : (if rest.takeWhile (fun c => decide (c ≠ '/')) = []
        then Except.error MalformedScopeError.malformedScope
        else parsePath (rest.takeWhile (fun c => decide (c ≠ '/'))) path)
        = Except.ok sc := h
    by_cases hb : rest.takeWhile (fun c => decide (c ≠ '/')) = []
    · rw [if_pos hb] at h'
      cases h'
    · rw [if_neg hb] at h'
      have ha : a = '/' := by
        have := dropWhile_cons_pred_false _ rest a path hd
        simpa using this
      refine ⟨rest.takeWhile (fun c => decide (c ≠ '/')), path, ?_, hb, ?_, h'⟩
      · subst ha
        rw [← hd]
        exact (List.takeWhile_append_dropWhile (fun c => decide (c ≠ '/')) rest).symm
      · intro hmem
        have := takeWhile_pred_of_mem _ rest '/' hmem
        simp at this

theorem parseScope_render (sc : Scope) (hv : validScope sc) :
    parseScope (renderScope sc) = .ok sc := by
  cases sc with
  | bucketScope b =>
    have hv' : b ≠ [] ∧ '/' ∉ b := hv
    show parseScope ("s3://".data ++ (b ++ "/*".data)) = _
    unfold parseScope
    rw [dropLit_self_append]
    show parseRest (b ++ '/' :: ['*']) = _
    rw [parseRest_split b ['*'] hv'.1 hv'.2]
    exact parsePath_bucket b
  | pfxScope b p =>
    have hv' : b ≠ [] ∧ '/' ∉ b ∧ p ≠ [] := hv
    show parseScope ("s3://".data ++ (b ++ ('/' :: (p ++ "*".data)))) = _
    unfold parseScope
    rw [dropLit_self_append]
    show parseRest (b ++ '/' :: (p ++ ['*'])) = _
    rw [parseRest_split b (p ++ ['*']) hv'.1 hv'.2.1]
    exact parsePath_pfx b p hv'.2.2
  | objScope b k =>
    have hv' : b ≠ [] ∧ '/' ∉ b ∧ k ≠ [] ∧ k.reverse.head? ≠ some '*' := hv
    show parseScope ("s3://".data ++ (b ++ ('/' :: k))) = _
    unfold parseScope
    rw [dropLit_self_append]
    show parseRest (b ++ '/' :: k) = _
    rw [parseRest_split b k hv'.1 hv'.2.1]
    exact parsePath_obj b k hv'.2.2.1 hv'.2.2.2

theorem parseScope_sound (s : List Char) (sc : Scope)
    (h : parseScope s = .ok sc) : validScope sc ∧ renderScope sc = s := by
  unfold parseScope at h
  cases hdl : dropLit "s3://".data s with
  | none =>
    rw [hdl] at h
    cases h
  | some rest =>
    rw [hdl] at h
    have h' : parseRest rest = .ok sc := h
    obtain ⟨b, path, hrest, hb, hslash, hpp⟩ := parseRest_spec rest sc h'
    have hs : s = "s3://".data ++ rest := eq_append_of_dropLit _ s rest hdl
    subst hrest
    subst hs
    rcases parsePath_spec b path sc hpp with ⟨hpath, rfl⟩ | ⟨p, hp, hpath, rfl⟩
      | ⟨hne, hstar, rfl⟩
    · subst hpath
      exact ⟨⟨hb, hslash⟩, rfl⟩
    · subst hpath
      exact ⟨⟨hb, hslash, hp⟩, rfl⟩
    · exact ⟨⟨hb, hslash, hne, hstar⟩, rfl⟩

/-- Claim C7: for every scope of one of the three recognized shapes, parsing
its textual form succeeds and reproduces the scope (round trip), parsing only
ever yields scopes whose reconstruction gives back exactly the input string,
and parsing fails with MalformedScopeError exactly on the strings that are
the rendering of no recognized shape. -/
theorem parseScope_roundtrip :
    (∀ sc, validScope sc → parseScope (renderScope sc) = .ok sc)
    ∧ (∀ s sc, parseScope s = .ok sc → validScope sc ∧ renderScope sc = s)
    ∧ (∀ s, parseScope s = .error .malformedScope
        ↔ ¬ ∃ sc, validScope sc ∧ renderScope sc = s) := by
  refine ⟨parseScope_render, parseScope_sound, ?_⟩
  intro s
  constructor
  · rintro herr ⟨sc, hv, hrender⟩
    have hok := parseScope_render sc hv
    rw [hrender] at hok
    rw [hok] at herr
    cases herr
  · intro hnone
    cases hres : parseScope s with
    | error e => cases e; rfl
    | ok sc =>
      exact absurd ⟨sc, (parseScope_sound s sc hres).1, (parseScope_sound s sc hres).2⟩ hnone

/-- Instantiation of parseScope_roundtrip at a concrete prefix scope: parsing
the rendering of the prefix scope bucket/logs/ gives the scope back. -/
theorem parseScope_roundtrip_witness :
    parseScope (renderScope (Scope.pfxScope "bucket".data "logs/".data))
      = .ok (Scope.pfxScope "bucket".data "logs/".data) :=
  parseScope_roundtrip.1 (Scope.pfxScope "bucket".data "logs/".data)
    ⟨by decide, by decide, by decide⟩

/-- GrantListingError: the underlying listing collaborator failed. -/
inductive GrantListingError
  | grantListingErr
deriving DecidableEq

/-- GrantDirectory state: the current snapshot of grants, if one has been
loaded. -/
structure Directory where
  snapshot : Option (List Grant)
deriving DecidableEq

/-- Modelled from the spec: paginated retrieval through the external listing
collaborator (ListAccessGrants) until the continuation token is exhausted;
any page failure propagates. Fuel bounds the page count; running out is
treated as a listing failure. -/
def loadPages (listing : Option Nat → Except GrantListingError (List Grant × Option Nat)) :
    Nat → Option Nat → Except GrantListingError (List Grant)
  | 0, _ => .error .grantListingErr
  | fuel + 1, tok =>
    match listing tok with
    | .error e => .error e
    | .ok (gs, none) => .ok gs
    | .ok (gs, some t) =>
      match loadPages listing fuel (some t) with
      | .error e => .error e
      | .ok rest => .ok (gs ++ rest)

/-- Modelled from the spec: GrantDirectory Load returns the current snapshot
if present and forceRefresh is false; otherwise it reloads all pages,
replacing the snapshot atomically on success and leaving the previous
snapshot intact on failure. -/
def loadDir (listing : Option Nat → Except GrantListingError (List Grant × Option Nat))
    (fuel : Nat) (forceRefresh : Bool) (d : Directory) :
    Except GrantListingError (List Grant) × Directory :=
  match d.snapshot, forceRefresh with
  | some snap, false => (.ok snap, d)
  | none, _ =>
    match loadPages listing fuel none with
    | .ok gs => (.ok gs, ⟨some gs⟩)
    | .error e => (.error e, d)
  | some _, true =>
    match loadPages listing fuel none with
    | .ok gs => (.ok gs, ⟨some gs⟩)
    | .error e => (.error e, d)

/-- Matching against the directory: runs the grant matcher over the current
snapshot, or nothing when no snapshot is loaded. -/
def matchDir (d : Directory) (s : Scope) (p : Permission) :
    Option (Except NoMatchError Grant) :=
  d.snapshot.map (fun gs => matchGrants gs s p)

/-- Claim C8: whenever a directory load fails, it surfaces
GrantListingError and the previous snapshot is left unchanged, so matching
against the directory after the failure sees exactly the grants it saw
before. -/
theorem loadDir_failure_preserves
    (listing : Option Nat → Except GrantListingError (List Grant × Option Nat))
    (fuel : Nat) (forceRefresh : Bool) (d : Directory) (e : GrantListingError)
    (h : (loadDir listing fuel forceRefresh d).1 = .error e) :
    (loadDir listing fuel forceRefresh d).2 = d
    ∧ ∀ s p, matchDir (loadDir listing fuel forceRefresh d).2 s p = matchDir d s p := by
  obtain ⟨snap⟩ := d
  have hmain : (loadDir listing fuel forceRefresh ⟨snap⟩).2 = ⟨snap⟩ := by
    cases snap with
    | none =>
      unfold loadDir at h ⊢
      cases hlp : loadPages listing fuel none with
      | ok gs =>
        rw [hlp] at h
        cases h
      | error e' => rfl
    | some s =>
      cases forceRefresh with
      | false => rfl
      | true =>
        unfold loadDir at h ⊢
        cases hlp : loadPages listing fuel none with
        | ok gs =>
          rw [hlp] at h
          cases h
        | error e' => rfl
  exact ⟨hmain, fun s p => by rw [hmain]⟩

/-- Instantiation of loadDir_failure_preserves at an always-failing listing
collaborator and a previously loaded one-grant snapshot. -/
theorem loadDir_failure_preserves_witness :
    (loadDir (fun _ => .error .grantListingErr) 3 true
      ⟨some [⟨Scope.bucketScope "b".data, Permission.READ, none⟩]⟩).2
      = ⟨some [⟨Scope.bucketScope "b".data, Permission.READ, none⟩]⟩ :=
  (loadDir_failure_preserves (fun _ => .error .grantListingErr) 3 true
    ⟨some [⟨Scope.bucketScope "b".data, Permission.READ, none⟩]⟩
    .grantListingErr (by rfl)).1

/-- Active store internals: the grants known to the directory and the
per-grant credentials cache. -/
structure ActiveStore (α : Type) where
  grants : List Grant
  cache : List (Grant × CredentialsRecord α)
deriving DecidableEq

/-- Store lifecycle state, from the data model: ACTIVE (with its grants and
cache) or DESTROYED. -/
inductive StoreState (α : Type)
  | active (s : ActiveStore α)
  | destroyed
deriving DecidableEq

/-- Calls that can be made against the store: GetProvider, invoking a
previously returned provider handle (carrying the clock reading and the
record IssueCredentials would produce), and Destroy. -/
inductive StoreOp (α : Type)
  | getProv (loc : Scope) (perm : Permission)
  | invokeProv (g : Grant) (now : Int) (fetched : CredentialsRecord α)
  | destroyOp
deriving DecidableEq

/-- Outcome of one store call. -/
inductive StoreOutcome (α : Type)
  | okHandle (g : Grant)
  | okCreds (r : CredentialsRecord α)
  | okDestroyed
  | errNoMatch
  | errDestroyed
deriving DecidableEq

/-- First cache entry for the given grant key, if present. -/
def lookupCache (g : Grant) : List (Grant × CredentialsRecord α) → Option (CredentialsRecord α)
  | [] => none
  | (k, r) :: rest => if k = g then some r else lookupCache g rest

/-- Replaces the cache entry for the given grant key. -/
def storeCache (g : Grant) (r : CredentialsRecord α)
    (c : List (Grant × CredentialsRecord α)) : List (Grant × CredentialsRecord α) :=
  (g, r) :: c.filter (fun kv => decide (kv.1 ≠ g))

/-- Modelled from the spec: the LocationCredentialsStore facade is not under
src/ (only its interface in types.ts). In ACTIVE state GetProvider resolves
through the grant matcher and a provider invocation serves cached or freshly
issued credentials; Destroy transitions to DESTROYED purging all entries;
every call in DESTROYED state fails with StoreDestroyedError. -/
def stepStore (margin : Int) : StoreOp α → StoreState α → StoreOutcome α × StoreState α
  | _, .destroyed => (.errDestroyed, .destroyed)
  | .destroyOp, .active _ => (.okDestroyed, .destroyed)
  | .getProv loc perm, .active s =>
    match matchGrants s.grants loc perm with
    | .ok g => (.okHandle g, .active s)
    | .error _ => (.errNoMatch, .active s)
  | .invokeProv g now fetched, .active s =>
    (.okCreds (getOrFetch now margin (lookupCache g s.cache) fetched).1,
     .active ⟨s.grants, storeCache g (getOrFetch now margin (lookupCache g s.cache) fetched).1 s.cache⟩)

/-- Runs a sequence of store calls, collecting each call's outcome and the
final state. -/
def runStore (margin : Int) : List (StoreOp α) → StoreState α → List (StoreOutcome α) × StoreState α
  | [], st => ([], st)
  | op :: ops, st =>
    ((stepStore margin op st).1 :: (runStore margin ops (stepStore margin op st).2).1,
     (runStore margin ops (stepStore margin op st).2).2)

theorem stepStore_destroyed (margin : Int) (op : StoreOp α) :
    stepStore margin op (StoreState.destroyed : StoreState α)
      = (.errDestroyed, .destroyed) := by
  cases op <;> rfl

theorem runStore_destroyed (margin : Int) (ops : List (StoreOp α)) :
    runStore margin ops (StoreState.destroyed : StoreState α)
      = (ops.map (fun _ => .errDestroyed), .destroyed) := by
  induction ops with
  | nil => rfl
  | cons op ops ih =>
    simp only [runStore, stepStore_destroyed, ih, List.map_cons]

/-- Claim C6: Destroy moves every state to DESTROYED purging the cache, and
afterwards every sequence of calls — GetProvider, invocations of previously
returned provider handles, or further Destroy calls — fails with
StoreDestroyedError at each step (so no previously cached record is returned
again) and leaves the store in DESTROYED forever. -/
theorem destroy_irreversible :
    (∀ (margin : Int) (st : StoreState Nat),
      (stepStore margin StoreOp.destroyOp st).2 = StoreState.destroyed)
    ∧ (∀ (margin : Int) (ops : List (StoreOp Nat)) (st : StoreState Nat),
        (runStore margin ops (stepStore margin StoreOp.destroyOp st).2).2
          = StoreState.destroyed
        ∧ ∀ o ∈ (runStore margin ops (stepStore margin StoreOp.destroyOp st).2).1,
            o = StoreOutcome.errDestroyed) := by
  have hdest : ∀ (margin : Int) (st : StoreState Nat),
      (stepStore margin StoreOp.destroyOp st).2 = StoreState.destroyed := by
    intro margin st
    cases st <;> rfl
  refine ⟨hdest, ?_⟩
  intro margin ops st
  rw [hdest margin st, runStore_destroyed]
  refine ⟨rfl, ?_⟩
  intro o ho
  simp only [List.mem_map] at ho
  obtain ⟨_, _, rfl⟩ := ho
  rfl

/-- Instantiation of destroy_irreversible: after destroying an active store,
a GetProvider call and a provider invocation both fail with
StoreDestroyedError and the store stays DESTROYED. -/
theorem destroy_irreversible_witness :
    (runStore 0
      [StoreOp.getProv (Scope.bucketScope "b".data) Permission.READ,
       StoreOp.invokeProv ⟨Scope.bucketScope "b".data, Permission.READ, none⟩ 0 ⟨5, 100⟩]
      (stepStore 0 StoreOp.destroyOp
        (StoreState.active (⟨[], [(⟨Scope.bucketScope "b".data, Permission.READ, none⟩, ⟨5, 100⟩)]⟩ : ActiveStore Nat))).2).2
      = StoreState.destroyed
    ∧ (StoreOutcome.errDestroyed : StoreOutcome Nat) = StoreOutcome.errDestroyed :=
  ⟨(destroy_irreversible.2 0
      [StoreOp.getProv (Scope.bucketScope "b".data) Permission.READ,
       StoreOp.invokeProv ⟨Scope.bucketScope "b".data, Permission.READ, none⟩ 0 ⟨5, 100⟩]
      (StoreState.active ⟨[], [(⟨Scope.bucketScope "b".data, Permission.READ, none⟩, ⟨5, 100⟩)]⟩)).1,
   (destroy_irreversible.2 0
      [StoreOp.getProv (Scope.bucketScope "b".data) Permission.READ,
       StoreOp.invokeProv ⟨Scope.bucketScope "b".data, Permission.READ, none⟩ 0 ⟨5, 100⟩]
      (StoreState.active ⟨[], [(⟨Scope.bucketScope "b".data, Permission.READ, none⟩, ⟨5, 100⟩)]⟩)).2
      StoreOutcome.errDestroyed (by simp [runStore, stepStore])⟩

/-- JavaScript Date abstracted to its ISO-8601 rendering, the only view the
copyObject serializer uses. -/
structure DateJS where
  iso : String
deriving DecidableEq

/-- Mirrors Date.prototype.toISOString on the abstracted date. -/
def DateJS.toISOString (d : DateJS) : String := d.iso

/-- The fields of CopyObjectInput (src/unnamed/part_000) that
validateCopyObjectHeaders inspects; the remaining fields only feed the
URL and the config-headers collaborator. -/
structure CopyObjectInput where
  CopySource : Option String
  MetadataDirective : Option String
  CopySourceIfMatch : Option String
  CopySourceIfUnmodifiedSince : Option DateJS
deriving DecidableEq

/-- IntegrityError from errors/IntegrityError. -/
inductive IntegrityError
  | integrityErr
deriving DecidableEq

/-- bothNilOrEqual from ../utils (not under src/), modelled from its use and
name: both absent, or equal. -/
def bothNilOrEqual (a b : Option String) : Bool :=
  (a.isNone && b.isNone) || decide (a = b)

/-- Header-map lookup: first entry with the key (earlier entries shadow
later ones, matching JS object spread when later spreads are listed first). -/
def lookupHdr : List (String × String) → String → Option String
  | [], _ => none
  | (k', v) :: rest, k => if k' = k then some v else lookupHdr rest k

/-- assignStringVariables from ../utils (not under src/), modelled from its
use: keeps only the entries whose value is present. -/
def assignStringVariables (kvs : List (String × Option String)) : List (String × String) :=
  kvs.foldr
    (fun kv acc =>
      match kv.2 with
      | some v => (kv.1, v) :: acc
      | none => acc) []

/-- The headers copyObjectSerializer builds (src/unnamed/part_000 lines
54-63): the config headers from serializeObjectConfigsToHeaders (base, a
collaborator not under src/, which emits none of the four copy headers)
overridden by the four copy-specific headers when present. -/
def copyObjectHeaders (base : List (String × String)) (input : CopyObjectInput) :
    List (String × String) :=
  assignStringVariables
    [("x-amz-copy-source", input.CopySource),
     ("x-amz-metadata-directive", input.MetadataDirective),
     ("x-amz-copy-source-if-match", input.CopySourceIfMatch),
     ("x-amz-copy-source-if-unmodified-since",
       input.CopySourceIfUnmodifiedSince.map DateJS.toISOString)] ++ base

/-- The four validations of validateCopyObjectHeaders (src/unnamed/part_000
lines 85-106). -/
def copyValidationsPass (input : CopyObjectInput) (hs : List (String × String)) : Bool :=
  decide (lookupHdr hs "x-amz-copy-source" = input.CopySource)
    && bothNilOrEqual input.MetadataDirective (lookupHdr hs "x-amz-metadata-directive")
    && bothNilOrEqual input.CopySourceIfMatch (lookupHdr hs "x-amz-copy-source-if-match")
    && bothNilOrEqual (input.CopySourceIfUnmodifiedSince.map DateJS.toISOString)
        (lookupHdr hs "x-amz-copy-source-if-unmodified-since")

/-- validateCopyObjectHeaders (src/unnamed/part_000 lines 81-111): throws
IntegrityError when some validation fails. -/
def validateCopyObjectHeaders (input : CopyObjectInput) (hs : List (String × String)) :
    Except IntegrityError Unit :=
  if copyValidationsPass input hs then .ok () else .error .integrityErr

theorem bothNilOrEqual_iff (a b : Option String) :
    bothNilOrEqual a b = true ↔ ((a = none ∧ b = none) ∨ a = b) := by
  simp [bothNilOrEqual, Option.isNone_iff_eq_none]

theorem lookupHdr_append (xs ys : List (String × String)) (k : String) :
    lookupHdr (xs ++ ys) k
      = match lookupHdr xs k with
        | some v => some v
        | none => lookupHdr ys k := by
  induction xs with
  | nil => rfl
  | cons kv rest ih =>
    obtain ⟨k', v⟩ := kv
    by_cases hk : k' = k
    · simp [lookupHdr, hk]
    · simp [lookupHdr, hk, ih]

/-- Claim C9: validateCopyObjectHeaders throws IntegrityError iff at least
one of the four checks fails (copy-source header equals input.CopySource;
metadata directive, copy-source-if-match, and copy-source-if-unmodified-since
each both absent or equal), and on the headers copyObjectSerializer itself
builds from the same input the IntegrityError branch is unreachable. -/
theorem validateCopyObjectHeaders_spec :
    (∀ (input : CopyObjectInput) (hs : List (String × String)),
      validateCopyObjectHeaders input hs = .error .integrityErr
        ↔ ¬(lookupHdr hs "x-amz-copy-source" = input.CopySource
            ∧ ((input.MetadataDirective = none
                  ∧ lookupHdr hs "x-amz-metadata-directive" = none)
                ∨ input.MetadataDirective = lookupHdr hs "x-amz-metadata-directive")
            ∧ ((input.CopySourceIfMatch = none
                  ∧ lookupHdr hs "x-amz-copy-source-if-match" = none)
                ∨ input.CopySourceIfMatch = lookupHdr hs "x-amz-copy-source-if-match")
            ∧ ((input.CopySourceIfUnmodifiedSince.map DateJS.toISOString = none
                  ∧ lookupHdr hs "x-amz-copy-source-if-unmodified-since" = none)
                ∨ input.CopySourceIfUnmodifiedSince.map DateJS.toISOString
                    = lookupHdr hs "x-amz-copy-source-if-unmodified-since")))
    ∧ (∀ (input : CopyObjectInput) (base : List (String × String)),
        lookupHdr base "x-amz-copy-source" = none →
        lookupHdr base "x-amz-metadata-directive" = none →
        lookupHdr base "x-amz-copy-source-if-match" = none →
        lookupHdr base "x-amz-copy-source-if-unmodified-since" = none →
        validateCopyObjectHeaders input (copyObjectHeaders base input) = .ok ()) := by
  constructor
  · intro input hs
    have hcond : copyValidationsPass input hs = true
        ↔ (lookupHdr hs "x-amz-copy-source" = input.CopySource
            ∧ ((input.MetadataDirective = none
                  ∧ lookupHdr hs "x-amz-metadata-directive" = none)
                ∨ input.MetadataDirective = lookupHdr hs "x-amz-metadata-directive")
            ∧ ((input.CopySourceIfMatch = none
                  ∧ lookupHdr hs "x-amz-copy-source-if-match" = none)
                ∨ input.CopySourceIfMatch = lookupHdr hs "x-amz-copy-source-if-match")
            ∧ ((input.CopySourceIfUnmodifiedSince.map DateJS.toISOString = none
                  ∧ lookupHdr hs "x-amz-copy-source-if-unmodified-since" = none)
                ∨ input.CopySourceIfUnmodifiedSince.map DateJS.toISOString
                    = lookupHdr hs "x-amz-copy-source-if-unmodified-since")) := by
      simp [copyValidationsPass, Bool.and_eq_true, decide_eq_true_eq,
        bothNilOrEqual_iff, and_assoc]
    unfold validateCopyObjectHeaders
    by_cases h : copyValidationsPass input hs = true
    · rw [if_pos h]
      exact iff_of_false (fun he => Except.noConfusion he) (fun hnp => hnp (hcond.mp h))
    · rw [if_neg h]
      exact iff_of_true rfl (fun hp => h (hcond.mpr hp))
  · intro input base h1 h2 h3 h4
    obtain ⟨cs, md, im, ius⟩ := input
    have hpass : copyValidationsPass ⟨cs, md, im, ius⟩
        (copyObjectHeaders base ⟨cs, md, im, ius⟩) = true := by
      cases cs <;> cases md <;> cases im <;> cases ius <;>
        simp [copyValidationsPass, copyObjectHeaders, assignStringVariables,
          lookupHdr_append, lookupHdr, bothNilOrEqual, h1, h2, h3, h4]
    simp [validateCopyObjectHeaders, hpass]

/-- Instantiation of validateCopyObjectHeaders_spec: the serializer-built
headers for a concrete input over concrete config headers validate cleanly. -/
theorem validateCopyObjectHeaders_spec_witness :
    validateCopyObjectHeaders
      ⟨some "srcbucket/srckey", some "COPY", none, some ⟨"2024-05-01T00:00:00.000Z"⟩⟩
      (copyObjectHeaders [("content-type", "text/plain")]
        ⟨some "srcbucket/srckey", some "COPY", none, some ⟨"2024-05-01T00:00:00.000Z"⟩⟩)
      = .ok () :=
  validateCopyObjectHeaders_spec.2
    ⟨some "srcbucket/srckey", some "COPY", none, some ⟨"2024-05-01T00:00:00.000Z"⟩⟩
    [("content-type", "text/plain")] (by decide) (by decide) (by decide) (by decide)

/-- The parts of the HTTP response copyObjectDeserializer reads: the status
code and the raw body handed to the XML collaborators. -/
structure HttpResponse where
  statusCode : Nat
  body : String
deriving DecidableEq

/-- The storage service error built by buildStorageServiceError (a
collaborator not under src/), modelled as the parsed cause paired with the
status code it is built from. -/
structure StorageServiceError (ε : Type) where
  cause : ε
  statusCode : Nat
deriving DecidableEq

/-- CopyObjectOutput as the deserializer constructs it: only the parsed
response metadata. -/
structure CopyObjectOutput (μ : Type) where
  metadata : μ
deriving DecidableEq

/-- copyObjectDeserializer (src/unnamed/part_000 lines 113-126),
parameterized over the out-of-src collaborators parseXmlError (pxe) and
parseMetadata (pm): statuses of 300 and above throw the storage service
error built from the parsed XML error, anything else returns only the
parsed metadata. -/
def copyObjectDeserializer (pxe : HttpResponse → ε) (pm : HttpResponse → μ)
    (r : HttpResponse) : Except (StorageServiceError ε) (CopyObjectOutput μ) :=
  if r.statusCode ≥ 300 then .error ⟨pxe r, r.statusCode⟩
  else .ok ⟨pm r⟩

/-- Claim C10: copyObjectDeserializer throws a storage service error built
from the parsed XML error iff the status code is at least 300, and otherwise
returns an output whose only content is the parsed response metadata. -/
theorem copyObjectDeserializer_spec :
    ∀ (ε μ : Type) (pxe : HttpResponse → ε) (pm : HttpResponse → μ) (r : HttpResponse),
      ((∃ e, copyObjectDeserializer pxe pm r = .error e) ↔ 300 ≤ r.statusCode)
      ∧ (300 ≤ r.statusCode →
          copyObjectDeserializer pxe pm r = .error ⟨pxe r, r.statusCode⟩)
      ∧ (r.statusCode < 300 → copyObjectDeserializer pxe pm r = .ok ⟨pm r⟩) := by
  intro ε μ pxe pm r
  by_cases h : 300 ≤ r.statusCode
  · refine ⟨iff_of_true ⟨⟨pxe r, r.statusCode⟩, ?_⟩ h, fun _ => ?_, fun hlt => absurd h (by omega)⟩
    · simp [copyObjectDeserializer, h]
    · simp [copyObjectDeserializer, h]
  · have hlt : r.statusCode < 300 := by omega
    refine ⟨iff_of_false ?_ h, fun hge => absurd hge h, fun _ => ?_⟩
    · rintro ⟨e, he⟩
      simp [copyObjectDeserializer, h] at he
    · simp [copyObjectDeserializer, h]

/-- Instantiation of copyObjectDeserializer_spec at status 404 (error path)
and status 200 (success path). -/
theorem copyObjectDeserializer_spec_witness :
    copyObjectDeserializer (fun r : HttpResponse => r.statusCode) (fun _ => (0 : Nat))
      ⟨404, "err"⟩ = .error ⟨404, 404⟩
    ∧ copyObjectDeserializer (fun r : HttpResponse => r.statusCode) (fun _ => (0 : Nat))
      ⟨200, "ok"⟩ = .ok ⟨0⟩ :=
  ⟨(copyObjectDeserializer_spec Nat Nat (fun r => r.statusCode) (fun _ => 0)
      ⟨404, "err"⟩).2.1 (by decide),
   (copyObjectDeserializer_spec Nat Nat (fun r => r.statusCode) (fun _ => 0)
      ⟨200, "ok"⟩).2.2 (by decide)⟩
